import Mathlib

/-!
Verification of the QP/C++ event-queue, kernel-port and BSP claims.

The event-queue implementation (`qf_qeq.cpp`) is not part of the source
tree here; only its interface `src/include/qequeue.hpp` is.  The queue
operations below are therefore modelled from the specification
(spec.md sections 3, 4.B, 7, 8) and the doc comments of `qequeue.hpp`.
The ARM Cortex-M kernel-port macros and the BSP functions are embedded
directly from their sources.
-/

namespace QP

/-- Events are identified by abstract references; a `QEvt` value stands for
the (non-null) event pointer stored in the queue. -/
abbrev QEvt := Nat

/-- Result of a queue operation that can hit a fatal assertion:
`ok a` is a normal return with value `a`; `fatal` marks a call into the
non-returning assertion handler `Q_onAssert`. -/
inductive QResult (α : Type) where
  | ok (a : α)
  | fatal
deriving Repr, DecidableEq

/-- Modelled from the spec: the native QF event queue
`{ front, ring, head, tail, n_free, n_min }` of spec.md section 3 and
`src/include/qequeue.hpp` (members `m_frontEvt`, `m_ring`, `m_end`,
`m_head`, `m_tail`, `m_nFree`, `m_nMin`).  The ring buffer with its
`m_head`/`m_tail` indices is represented functionally as the list of
currently queued ring events in FIFO order (next event to leave the ring
first); the index bookkeeping is abstracted away. -/
structure QEQueue where
  m_frontEvt : Option QEvt
  m_ring : List QEvt
  m_end : Nat
  m_nFree : Nat
  m_nMin : Nat
deriving Repr, DecidableEq

/-- Modelled from the spec: `QEQueue::init(qSto, qLen)` (missing
implementation `qf_qeq.cpp`).  Per `qequeue.hpp`, the actual capacity of
the queue is `qLen + 1` because of the extra front location, so `n_free`
starts at `qLen + 1`; the low-watermark starts equal to `n_free`. -/
def QEQueue.init (qLen : Nat) : QEQueue :=
  { m_frontEvt := none
    m_ring := []
    m_end := qLen
    m_nFree := qLen + 1
    m_nMin := qLen + 1 }

/-- Modelled from the spec: `QEQueue::post(e, margin, qs_id)` (missing
implementation `qf_qeq.cpp`).  Spec.md 4.B: if `n_free <= margin` the post
fails -- a failure with `margin = 0` is the fatal queue-overflow
assertion, otherwise `false` is returned; on success `n_free` is
decremented (the front slot counts toward `n_free`), the low-watermark is
updated, and the event goes to the front slot when the queue is empty,
else to the back of the ring. -/
def QEQueue.post (q : QEQueue) (e : QEvt) (margin : Nat) :
    QResult (Bool × QEQueue) :=
  if q.m_nFree ≤ margin then
    if margin = 0 then .fatal
    else .ok (false, q)
  else
    let nFree := q.m_nFree - 1
    let q1 : QEQueue :=
      { q with m_nFree := nFree, m_nMin := min q.m_nMin nFree }
    match q.m_frontEvt with
    | none => .ok (true, { q1 with m_frontEvt := some e })
    | some _ => .ok (true, { q1 with m_ring := q1.m_ring ++ [e] })

/-- Modelled from the spec: `QEQueue::postLIFO(e, qs_id)` (missing
implementation `qf_qeq.cpp`).  Spec.md 4.B: the new event always becomes
the front event; a non-empty queue pushes the displaced front event into
the ring at the slot the next `get` will read.  Per the `qequeue.hpp` doc
comment, posting to a full queue raises the fatal assertion (LIFO posting
takes no margin). -/
def QEQueue.postLIFO (q : QEQueue) (e : QEvt) : QResult QEQueue :=
  if q.m_nFree = 0 then .fatal
  else
    let nFree := q.m_nFree - 1
    let q1 : QEQueue :=
      { q with m_nFree := nFree, m_nMin := min q.m_nMin nFree }
    match q.m_frontEvt with
    | none => .ok { q1 with m_frontEvt := some e }
    | some f => .ok { q1 with m_frontEvt := some e, m_ring := f :: q1.m_ring }

/-- Modelled from the spec: `QEQueue::get(qs_id)` (missing implementation
`qf_qeq.cpp`).  Spec.md 4.B: dequeues from the front slot; if the ring
has items the next ring event refills the front, otherwise the front
becomes empty; `n_free` is incremented.  Returns the dequeued event
(`none` models the null pointer returned for an empty queue) together
with the new queue state. -/
def QEQueue.get (q : QEQueue) : Option QEvt × QEQueue :=
  match q.m_frontEvt with
  | none => (none, q)
  | some e =>
    match q.m_ring with
    | [] => (some e, { q with m_frontEvt := none, m_nFree := q.m_nFree + 1 })
    | f :: rest =>
      (some e,
       { q with m_frontEvt := some f, m_ring := rest,
                m_nFree := q.m_nFree + 1 })

/-- `QEQueue::getNFree()` from `src/include/qequeue.hpp`. -/
def QEQueue.getNFree (q : QEQueue) : Nat := q.m_nFree

/-- `QEQueue::getNMin()` from `src/include/qequeue.hpp`. -/
def QEQueue.getNMin (q : QEQueue) : Nat := q.m_nMin

/-- `QEQueue::isEmpty()` from `src/include/qequeue.hpp`:
`return m_frontEvt == nullptr`. -/
def QEQueue.isEmpty (q : QEQueue) : Bool := q.m_frontEvt = none

/-- The boolean status a `post` returned, if it returned at all. -/
def postStatus : QResult (Bool × QEQueue) → Option Bool
  | .ok (b, _) => some b
  | .fatal => none

/-- Run a sequence of FIFO posts `(event, margin)`; returns the list of
post statuses and the final queue state, or `none` if a post was fatal. -/
def postSeq (q : QEQueue) : List (QEvt × Nat) → Option (List Bool × QEQueue)
  | [] => some ([], q)
  | (e, m) :: rest =>
    match q.post e m with
    | .fatal => none
    | .ok (b, q1) => (postSeq q1 rest).map fun p => (b :: p.1, p.2)

/-- Number of events currently held by the queue: one for an occupied
front slot plus the events in the ring. -/
def queuedCount (q : QEQueue) : Nat :=
  (match q.m_frontEvt with | none => 0 | some _ => 1) + q.m_ring.length

end QP

namespace QP

/-- **C1.** `QEQueue::post(e, margin, qs_id)` returns `false` exactly when
`n_free ≤ margin` for `margin > 0`; it succeeds whenever `n_free > margin`;
with `margin = 0` and no free entry it does not return `false` but raises
the fatal assertion.  Concretely, on a queue of total capacity 3
(ring length 2 plus the front slot) a sequence of three posts with
margin 1 yields statuses `true, true, false`. -/
theorem post_margin_correct (q : QEQueue) (e : QEvt) (margin : Nat) :
    (0 < margin →
      (postStatus (q.post e margin) = some false ↔ q.m_nFree ≤ margin)) ∧
    (margin < q.m_nFree → postStatus (q.post e margin) = some true) ∧
    (margin = 0 → q.m_nFree = 0 → q.post e margin = .fatal) ∧
    (postSeq (QEQueue.init 2) [(1, 1), (2, 1), (3, 1)]).map Prod.fst
      = some [true, true, false] := by
  refine ⟨?_, ?_, ?_, by decide⟩
  · intro hm
    unfold QEQueue.post
    by_cases h : q.m_nFree ≤ margin
    · simp [h, Nat.pos_iff_ne_zero.mp hm, postStatus]
    · simp only [if_neg h]
      cases q.m_frontEvt <;> simp [postStatus, h]
  · intro h
    unfold QEQueue.post
    simp only [if_neg (Nat.not_le.mpr h)]
    cases q.m_frontEvt <;> simp [postStatus]
  · intro hm h0
    unfold QEQueue.post
    simp [hm, h0]

/-- Witness for C1 at a concrete queue: capacity 3 (ring length 2),
margin 1, one event. -/
theorem post_margin_correct_witness :
    (0 < 1 ∧ postStatus ((QEQueue.init 2).post 5 1) = some true) ∧
    ((1 : Nat) < (QEQueue.init 2).m_nFree) := by
  exact ⟨⟨by decide,
    (post_margin_correct (QEQueue.init 2) 5 1).2.1 (by decide)⟩, by decide⟩

end QP

namespace QP

/-- A queue operation, for describing operation sequences. -/
inductive QOp where
  | post (e : QEvt) (margin : Nat)
  | postLIFO (e : QEvt)
  | get
deriving Repr, DecidableEq

/-- Run one queue operation; `none` marks a fatal assertion.  A rejected
FIFO post (status `false`) leaves the queue unchanged and is a normal
return. -/
def runOp (q : QEQueue) : QOp → Option QEQueue
  | .post e m =>
    match q.post e m with
    | .fatal => none
    | .ok (_, q1) => some q1
  | .postLIFO e =>
    match q.postLIFO e with
    | .fatal => none
    | .ok q1 => some q1
  | .get => some (q.get).2

/-- Run a sequence of queue operations. -/
def run (q : QEQueue) : List QOp → Option QEQueue
  | [] => some q
  | op :: ops =>
    match runOp q op with
    | none => none
    | some q1 => run q1 ops

/-- The values taken by `m_nFree` after each operation of a run
(cut short at a fatal assertion). -/
def nFreeTrace (q : QEQueue) : List QOp → List Nat
  | [] => []
  | op :: ops =>
    match runOp q op with
    | none => []
    | some q1 => q1.m_nFree :: nFreeTrace q1 ops

/-- Queue states reachable from `init` by (non-fatal) queue operations. -/
inductive Reachable : QEQueue → Prop where
  | init (qLen : Nat) : Reachable (QEQueue.init qLen)
  | step {q q1 : QEQueue} {op : QOp} :
      Reachable q → runOp q op = some q1 → Reachable q1

/-- The event returned by `get` immediately after `postLIFO e`
(`none` when the LIFO post is fatal). -/
def lifoThenGet (q : QEQueue) (e : QEvt) : Option QEvt :=
  match q.postLIFO e with
  | .fatal => none
  | .ok q1 => (q1.get).1

/-- One queue operation preserves `n_free + queued_count = m_end + 1`. -/
theorem runOp_capacity {q q1 : QEQueue} {op : QOp}
    (h : runOp q op = some q1)
    (hq : q.m_nFree + queuedCount q = q.m_end + 1) :
    q1.m_nFree + queuedCount q1 = q1.m_end + 1 := by
  obtain ⟨fr, ring, en, nf, nm⟩ := q
  cases op with
  | post e m =>
    by_cases hle : nf ≤ m
    · by_cases hm : m = 0
      · have hnf : nf = 0 := by omega
        simp [runOp, QEQueue.post, hnf, hm] at h
      · simp [runOp, QEQueue.post, hle, hm] at h
        subst h
        simpa [queuedCount] using hq
    · cases fr <;>
        (simp [runOp, QEQueue.post, hle] at h;
         subst h;
         simp [queuedCount] at hq ⊢;
         omega)
  | postLIFO e =>
    by_cases h0 : nf = 0
    · simp [runOp, QEQueue.postLIFO, h0] at h
    · cases fr <;>
        (simp [runOp, QEQueue.postLIFO, h0] at h;
         subst h;
         simp [queuedCount] at hq ⊢;
         omega)
  | get =>
    cases fr with
    | none =>
      simp [runOp, QEQueue.get] at h
      subst h
      simpa [queuedCount] using hq
    | some e =>
      cases ring <;>
        (simp [runOp, QEQueue.get] at h;
         subst h;
         simp [queuedCount] at hq ⊢;
         omega)

end QP

namespace QP

/-- **C4.** For every reachable queue state after `init(qSto, qLen)`,
`n_free + queued_count = capacity + 1`, where the capacity is the ring
length (`m_end = qLen`) and the extra 1 accounts for the front slot;
the equation holds at `init` and is preserved by every `post`,
`postLIFO` and `get`. -/
theorem queue_capacity_invariant (q : QEQueue) (h : Reachable q) :
    q.m_nFree + queuedCount q = q.m_end + 1 := by
  induction h with
  | init qLen => simp [QEQueue.init, queuedCount]
  | step _ hop ih => exact runOp_capacity hop ih

/-- Witness for C4: the freshly initialized queue of ring length 2. -/
theorem queue_capacity_invariant_witness :
    (QEQueue.init 2).m_nFree + queuedCount (QEQueue.init 2)
      = (QEQueue.init 2).m_end + 1 :=
  queue_capacity_invariant (QEQueue.init 2) (Reachable.init 2)

/-- **C5.** The queue is empty exactly when the front slot is null
(`isEmpty()` returns `m_frontEvt == nullptr`), and when the queue is
non-empty the front slot holds exactly the event the next `get()`
returns.  This holds for every queue state, hence for every reachable
one, and is therefore preserved by every operation. -/
theorem isEmpty_front_next (q : QEQueue) :
    (q.isEmpty = true ↔ q.m_frontEvt = none) ∧
    (∀ e : QEvt, q.m_frontEvt = some e → (q.get).1 = some e) := by
  constructor
  · simp [QEQueue.isEmpty]
  · intro e he
    unfold QEQueue.get
    rw [he]
    cases q.m_ring <;> simp

/-- Witness for C5: a queue whose front slot holds event 4. -/
theorem isEmpty_front_next_witness :
    ((⟨some 4, [9], 1, 0, 0⟩ : QEQueue).get).1 = some 4 :=
  (isEmpty_front_next ⟨some 4, [9], 1, 0, 0⟩).2 4 rfl

/-- **C3** fails as stated: on a full queue (reachable here by two posts
into a queue of ring length 1) `postLIFO` does not displace the front
event but raises the fatal assertion, so `postLIFO(99)` followed by
`get()` does not return event 99. -/
theorem postLIFO_full_fatal :
    run (QEQueue.init 1) [QOp.post 10 0, QOp.post 11 0]
      = some ⟨some 10, [11], 1, 0, 0⟩ ∧
    (⟨some 10, [11], 1, 0, 0⟩ : QEQueue).postLIFO 99 = .fatal ∧
    lifoThenGet ⟨some 10, [11], 1, 0, 0⟩ 99 ≠ some 99 := by decide

/-- **C3 (amended).** Provided the queue has at least one free entry
(`n_free ≠ 0`; on a full queue `postLIFO` raises the fatal assertion),
`postLIFO(e)` followed by `get()` returns `e`, irrespective of prior
queued events: the LIFO post makes `e` the front event and pushes any
displaced front event into the ring at the slot the next `get` reads. -/
theorem postLIFO_then_get (q : QEQueue) (e : QEvt)
    (h : q.m_nFree ≠ 0) :
    lifoThenGet q e = some e ∧
    (∀ q1, q.postLIFO e = .ok q1 →
      q1.m_frontEvt = some e ∧
      q1.m_ring = (match q.m_frontEvt with
                   | none => q.m_ring
                   | some f => f :: q.m_ring)) := by
  obtain ⟨fr, ring, en, nf, nm⟩ := q
  constructor
  · cases fr with
    | none =>
      cases ring <;> simp [lifoThenGet, QEQueue.postLIFO, QEQueue.get, h]
    | some f => simp [lifoThenGet, QEQueue.postLIFO, QEQueue.get, h]
  · intro q1 h1
    cases fr <;>
      (simp [QEQueue.postLIFO, h] at h1; subst h1; simp)

/-- Witness for C3 (amended): LIFO post of event 7 onto a non-empty,
non-full queue, then `get`. -/
theorem postLIFO_then_get_witness :
    ((⟨some 4, [], 2, 2, 2⟩ : QEQueue).m_nFree ≠ 0) ∧
    lifoThenGet ⟨some 4, [], 2, 2, 2⟩ 7 = some 7 :=
  ⟨by decide, (postLIFO_then_get ⟨some 4, [], 2, 2, 2⟩ 7 (by decide)).1⟩

end QP

namespace QP

/-- One queue operation updates the low-watermark to the minimum of the
old watermark and the new free count (`get` and rejected posts leave it
alone but never raise it), and keeps `n_min ≤ n_free`. -/
theorem runOp_nMin {q q1 : QEQueue} {op : QOp}
    (h : runOp q op = some q1) (hq : q.m_nMin ≤ q.m_nFree) :
    q1.m_nMin = min q.m_nMin q1.m_nFree ∧ q1.m_nMin ≤ q1.m_nFree := by
  obtain ⟨fr, ring, en, nf, nm⟩ := q
  cases op with
  | post e m =>
    by_cases hle : nf ≤ m
    · by_cases hm : m = 0
      · have hnf : nf = 0 := by omega
        simp [runOp, QEQueue.post, hnf, hm] at h
      · simp [runOp, QEQueue.post, hle, hm] at h
        subst h
        simp at hq ⊢
        omega
    · cases fr <;>
        (simp [runOp, QEQueue.post, hle] at h;
         subst h;
         simp at hq ⊢;
         try omega)
  | postLIFO e =>
    by_cases h0 : nf = 0
    · simp [runOp, QEQueue.postLIFO, h0] at h
    · cases fr <;>
        (simp [runOp, QEQueue.postLIFO, h0] at h;
         subst h;
         simp at hq ⊢;
         try omega)
  | get =>
    cases fr with
    | none =>
      simp [runOp, QEQueue.get] at h
      subst h
      simp at hq ⊢
      omega
    | some e =>
      cases ring <;>
        (simp [runOp, QEQueue.get] at h;
         subst h;
         simp at hq ⊢;
         try omega)

/-- Along any non-fatal run, the final low-watermark is the minimum of
the starting watermark and every intermediate free count, and
`n_min ≤ n_free` is preserved. -/
theorem run_nMin_foldl :
    ∀ (ops : List QOp) (q qf : QEQueue),
      run q ops = some qf → q.m_nMin ≤ q.m_nFree →
      qf.m_nMin ≤ qf.m_nFree ∧
      qf.m_nMin = List.foldl min q.m_nMin (nFreeTrace q ops) := by
  intro ops
  induction ops with
  | nil =>
    intro q qf h hq
    simp [run, nFreeTrace] at h ⊢
    subst h
    exact ⟨hq, rfl⟩
  | cons op ops ih =>
    intro q qf h hq
    cases hop : runOp q op with
    | none => simp [run, hop] at h
    | some q1 =>
      simp only [run, hop] at h
      obtain ⟨hmin, hle⟩ := runOp_nMin hop hq
      obtain ⟨h1, h2⟩ := ih q1 qf h hle
      refine ⟨h1, ?_⟩
      simp only [nFreeTrace, hop, List.foldl_cons]
      rw [h2, hmin]

/-- **C8.** After `init`, the low-watermark `n_min` is monotonically
non-increasing: no successful `post`, `postLIFO` or `get` ever increases
it, and at every point `getNMin()` equals the minimum value `n_free` has
ever taken since `init` (the initial free count folded with the free
count after every operation). -/
theorem nMin_watermark (qLen : Nat) (ops : List QOp) (q : QEQueue)
    (h : run (QEQueue.init qLen) ops = some q) :
    q.getNMin = List.foldl min (QEQueue.init qLen).m_nFree
        (nFreeTrace (QEQueue.init qLen) ops) ∧
    (∀ op q1, runOp q op = some q1 → q1.m_nMin ≤ q.m_nMin) := by
  have h0 : (QEQueue.init qLen).m_nMin ≤ (QEQueue.init qLen).m_nFree :=
    le_refl _
  obtain ⟨hle, heq⟩ := run_nMin_foldl ops (QEQueue.init qLen) q h h0
  constructor
  · rw [QEQueue.getNMin, heq]
    have : (QEQueue.init qLen).m_nMin = (QEQueue.init qLen).m_nFree := rfl
    rw [this]
  · intro op q1 h1
    obtain ⟨hmin, _⟩ := runOp_nMin h1 hle
    rw [hmin]
    exact min_le_left _ _

/-- Witness for C8: ring length 1, a post, a get and another post; the
watermark ends at 1, the least free count ever seen. -/
theorem nMin_watermark_witness :
    run (QEQueue.init 1) [QOp.post 5 0, QOp.get, QOp.post 6 0]
      = some ⟨some 6, [], 1, 1, 1⟩ ∧
    QEQueue.getNMin ⟨some 6, [], 1, 1, 1⟩
      = List.foldl min (QEQueue.init 1).m_nFree
          (nFreeTrace (QEQueue.init 1) [QOp.post 5 0, QOp.get, QOp.post 6 0]) :=
  ⟨by decide,
   (nMin_watermark 1 [QOp.post 5 0, QOp.get, QOp.post 6 0]
      ⟨some 6, [], 1, 1, 1⟩ (by decide)).1⟩

end QP

namespace ArmCm

/-- One step of the `QK_ISR_EXIT()` / `QXK_ISR_EXIT()` macro sequence:
interrupt disable/enable, a memory-mapped register write, or the DSB
barrier. -/
inductive ISRAction where
  | intDisable
  | intEnable
  | write (addr val : Nat)
  | dsb
deriving Repr, DecidableEq

/-- Address of the ARM Cortex-M Interrupt Control and State Register,
`0xE000ED04`. -/
def ICSR_ADDR : Nat := 0xE000ED04

/-- The PendSV-set bit value written into the ICSR: `1 << 28`. -/
def PENDSVSET : Nat := 2 ^ 28

/-- `QK_ARM_ERRATUM_838869()` from the QK Cortex-M port
(`src/unnamed/part_000`): `((void)0)` on ARMv6-M (Cortex-M0/M0+/M1), a
`dsb` instruction on ARMv7-M and above.  `arch` is `__ARM_ARCH`. -/
def QK_ARM_ERRATUM_838869 (arch : Nat) : List ISRAction :=
  if arch = 6 then [] else [.dsb]

/-- `QK_ISR_EXIT()` from the QK Cortex-M port (`src/unnamed/part_000`):
`QF_INT_DISABLE(); if (QK_sched_() != 0U) { *0xE000ED04 = 1U << 28U; }
QF_INT_ENABLE(); QK_ARM_ERRATUM_838869();`.  `sched` is the value
returned by `QK_sched_()` under the interrupt lock. -/
def QK_ISR_EXIT (sched arch : Nat) : List ISRAction :=
  [.intDisable] ++
  (if sched ≠ 0 then [.write ICSR_ADDR PENDSVSET] else []) ++
  [.intEnable] ++
  QK_ARM_ERRATUM_838869 arch

/-- `QXK_ARM_ERRATUM_838869()` from
`src/ports/arm-cm/qxk/iar/qxk_port.hpp`: `((void)0)` on ARMv6-M,
`__DSB()` on ARMv7-M and above. -/
def QXK_ARM_ERRATUM_838869 (arch : Nat) : List ISRAction :=
  if arch = 6 then [] else [.dsb]

/-- `QXK_ISR_EXIT()` from `src/ports/arm-cm/qxk/iar/qxk_port.hpp`:
`QF_INT_DISABLE(); if (QXK_sched_() != 0U) { QXK_CONTEXT_SWITCH_(); }
QF_INT_ENABLE(); QXK_ARM_ERRATUM_838869();` where
`QXK_CONTEXT_SWITCH_()` writes `1U << 28U` to `0xE000ED04`. -/
def QXK_ISR_EXIT (sched arch : Nat) : List ISRAction :=
  [.intDisable] ++
  (if sched ≠ 0 then [.write ICSR_ADDR PENDSVSET] else []) ++
  [.intEnable] ++
  QXK_ARM_ERRATUM_838869 arch

/-- The ISR-exit sequence in the order claim C2 states it: conditional
PendSV write with interrupts disabled, then the DSB workaround, then
interrupt re-enable last. -/
def isrExitClaimed (sched arch : Nat) : List ISRAction :=
  [.intDisable] ++
  (if sched ≠ 0 then [.write ICSR_ADDR PENDSVSET] else []) ++
  QK_ARM_ERRATUM_838869 arch ++
  [.intEnable]

/-- **C2** fails as stated: on ARMv7-M with the scheduler reporting a
preemption needed (`QK_sched_() = 1`), both kernels' ISR-exit macros
re-enable interrupts *before* executing the DSB erratum-838869
workaround, not after it. -/
theorem isr_exit_order_cex :
    QK_ISR_EXIT 1 7 ≠ isrExitClaimed 1 7 ∧
    QXK_ISR_EXIT 1 7 ≠ isrExitClaimed 1 7 ∧
    (QK_ISR_EXIT 1 7).indexOf ISRAction.intEnable
      < (QK_ISR_EXIT 1 7).indexOf ISRAction.dsb := by decide

/-- **C2 (amended).** On ISR exit in the preemptive kernels, with
interrupts disabled, the scheduler is consulted and the PendSV pending
bit (word at `0xE000ED04` set to `1 << 28`) is written if and only if
the scheduler call returns nonzero (a higher-priority active object is
ready); then interrupts are re-enabled, and only after that the DSB
workaround for ARM erratum 838869 executes on ARMv7-M and above (it is
a no-op on ARMv6-M).  The QXK port's sequence is identical to QK's. -/
theorem isr_exit_sched_pendsv (sched arch : Nat) :
    ((QK_ISR_EXIT sched arch).head? = some ISRAction.intDisable) ∧
    (ISRAction.write ICSR_ADDR PENDSVSET ∈ QK_ISR_EXIT sched arch
      ↔ sched ≠ 0) ∧
    (ISRAction.dsb ∈ QK_ISR_EXIT sched arch ↔ arch ≠ 6) ∧
    (arch ≠ 6 →
      (QK_ISR_EXIT sched arch).indexOf ISRAction.intEnable
        < (QK_ISR_EXIT sched arch).indexOf ISRAction.dsb) ∧
    QXK_ISR_EXIT sched arch = QK_ISR_EXIT sched arch := by
  by_cases hs : sched = 0 <;> by_cases ha : arch = 6 <;>
    simp [QK_ISR_EXIT, QXK_ISR_EXIT, QK_ARM_ERRATUM_838869,
          QXK_ARM_ERRATUM_838869, hs, ha, List.indexOf_cons,
          ICSR_ADDR, PENDSVSET]

/-- Witness for C2 (amended) at `sched = 1`, `arch = 7` (ARMv7-M with a
higher-priority AO ready). -/
theorem isr_exit_sched_pendsv_witness :
    ((7 : Nat) ≠ 6) ∧
    (QK_ISR_EXIT 1 7).indexOf ISRAction.intEnable
      < (QK_ISR_EXIT 1 7).indexOf ISRAction.dsb :=
  ⟨by decide, (isr_exit_sched_pendsv 1 7).2.2.2.1 (by decide)⟩

/-- One step of the `QV_CPU_SLEEP()` macro sequence. -/
inductive SleepAction where
  | wfi
  | intEnable
  | primaskDisable
  | primaskEnable
deriving Repr, DecidableEq

/-- `QV_CPU_SLEEP()` from `src/ports/arm-cm/qv/iar/qv_port.hpp`: the
ARMv6-M variant is `__WFI(); QF_INT_ENABLE();`; the variant for
Cortex-M3/M4/M7 (ARMv7-M and above) is `QF_PRIMASK_DISABLE();
QF_INT_ENABLE(); __WFI(); QF_PRIMASK_ENABLE();`. -/
def QV_CPU_SLEEP (arch : Nat) : List SleepAction :=
  if arch = 6 then [.wfi, .intEnable]
  else [.primaskDisable, .intEnable, .wfi, .primaskEnable]

/-- Interrupt-masking state of the core: whether PRIMASK is set
(masking everything) and whether the QF interrupt-disable state
(BASEPRI on ARMv7-M) is in force. -/
structure CpuState where
  primaskSet : Bool
  qfIntDisabled : Bool
deriving Repr, DecidableEq

/-- Effect of one sleep-macro action on the masking state. -/
def sleepStep (s : CpuState) : SleepAction → CpuState
  | .wfi => s
  | .intEnable => { s with qfIntDisabled := false }
  | .primaskDisable => { s with primaskSet := true }
  | .primaskEnable => { s with primaskSet := false }

/-- An interrupt can be taken only when neither PRIMASK nor the QF
interrupt-disable state masks it. -/
def canTakeIRQ (s : CpuState) : Bool := !s.primaskSet && !s.qfIntDisabled

/-- The masking states at which each action up to and including the
`WFI` begins executing. -/
def statesUptoWFI : CpuState → List SleepAction → List CpuState
  | _, [] => []
  | s, a :: rest =>
    if a = SleepAction.wfi then [s]
    else s :: statesUptoWFI (sleepStep s a) rest

/-- **C6** fails as stated: the ARMv6-M variant of `QV_CPU_SLEEP()` is
`__WFI(); QF_INT_ENABLE();`, not the PRIMASK-based four-step sequence
the claim ascribes to every Cortex-M invocation. -/
theorem qv_sleep_v6_cex :
    QV_CPU_SLEEP 6 = [SleepAction.wfi, SleepAction.intEnable] ∧
    QV_CPU_SLEEP 6 ≠ [SleepAction.primaskDisable, SleepAction.intEnable,
                      SleepAction.wfi, SleepAction.primaskEnable] := by
  decide

/-- **C6 (amended).** On ARMv7-M and above the QV idle sleep macro
performs `QF_PRIMASK_DISABLE(); QF_INT_ENABLE(); __WFI();
QF_PRIMASK_ENABLE();` while the ARMv6-M variant is `__WFI();
QF_INT_ENABLE();`.  In both variants, entered with QF interrupts
disabled, no point before or at the `WFI` allows an interrupt to be
taken, so no enabled-interrupt window exists between the readiness
check and the `WFI`. -/
theorem qv_sleep_correct (arch : Nat) :
    (arch ≠ 6 → QV_CPU_SLEEP arch =
      [SleepAction.primaskDisable, SleepAction.intEnable,
       SleepAction.wfi, SleepAction.primaskEnable]) ∧
    QV_CPU_SLEEP 6 = [SleepAction.wfi, SleepAction.intEnable] ∧
    (∀ s0 : CpuState, s0.qfIntDisabled = true →
      ∀ s ∈ statesUptoWFI s0 (QV_CPU_SLEEP arch), canTakeIRQ s = false) := by
  by_cases ha : arch = 6
  · subst ha
    refine ⟨by simp, by simp [QV_CPU_SLEEP], ?_⟩
    intro s0 h0 s hs
    obtain ⟨pm, id⟩ := s0
    simp only at h0
    subst h0
    simp [QV_CPU_SLEEP, statesUptoWFI, sleepStep] at hs
    subst hs
    simp [canTakeIRQ]
  · refine ⟨fun _ => by simp [QV_CPU_SLEEP, ha], by simp [QV_CPU_SLEEP], ?_⟩
    intro s0 h0 s hs
    obtain ⟨pm, id⟩ := s0
    simp only at h0
    subst h0
    simp [QV_CPU_SLEEP, ha, statesUptoWFI, sleepStep] at hs
    rcases hs with hs | hs | hs <;> subst hs <;> simp [canTakeIRQ]

/-- Witness for C6 (amended): ARMv7-M, entered with PRIMASK clear and
QF interrupts disabled; the state at the `WFI` cannot take an
interrupt. -/
theorem qv_sleep_correct_witness :
    QV_CPU_SLEEP 7 = [SleepAction.primaskDisable, SleepAction.intEnable,
      SleepAction.wfi, SleepAction.primaskEnable] ∧
    canTakeIRQ ⟨true, false⟩ = false :=
  ⟨(qv_sleep_correct 7).1 (by decide),
   (qv_sleep_correct 7).2.2 ⟨false, true⟩ rfl ⟨true, false⟩ (by decide)⟩

end ArmCm

namespace BSP

/-- Terminal behavior of a code path that must not return. -/
inductive AssertEnd where
  | loopForever
  | systemReset
  | returnsToCaller
deriving Repr, DecidableEq

/-- `Q_onAssert(module, loc)` from
`src/examples/arm-cm/dpp_stm32f746g-discovery/qxk/bsp.cpp`: after the
`QS_ASSERTION` trace record, a debug build (`NDEBUG` undefined) lights
LED1 and hangs in `for (;;) {}`; a release build (`NDEBUG` defined)
calls `NVIC_SystemReset()`.  The two non-returning terminals are
modelled as outcome markers; `mod` and `loc` are the unused
`(void)module; (void)loc;` arguments. -/
def Q_onAssert (ndebug : Bool) (mod : String) (loc : Int) : AssertEnd :=
  if ndebug then AssertEnd.systemReset else AssertEnd.loopForever

/-- **C7.** `Q_onAssert` never returns to its caller: for every module
string and line number, a debug build hangs in the endless loop and a
release build resets the system; no path reaches
`returnsToCaller`. -/
theorem onAssert_never_returns (ndebug : Bool) (mod : String) (loc : Int) :
    Q_onAssert ndebug mod loc ≠ AssertEnd.returnsToCaller ∧
    (ndebug = false → Q_onAssert ndebug mod loc = AssertEnd.loopForever) ∧
    (ndebug = true → Q_onAssert ndebug mod loc = AssertEnd.systemReset) := by
  cases ndebug <;> simp [Q_onAssert]

/-- Witness for C7 on both build configurations at a concrete
module/line. -/
theorem onAssert_never_returns_witness :
    Q_onAssert false "dpp" 123 = AssertEnd.loopForever ∧
    Q_onAssert true "dpp" 123 = AssertEnd.systemReset :=
  ⟨(onAssert_never_returns false "dpp" 123).2.1 rfl,
   (onAssert_never_returns true "dpp" 123).2.2 rfl⟩

/-- `2^32`, the modulus of the wrapping `uint32_t` arithmetic in
`BSP::random`. -/
def U32 : Nat := 2 ^ 32

/-- The "Super-Duper" LCG multiplier of `BSP::random`:
`3U*7U*11U*13U*23U`. -/
def RAND_MULT : Nat := 3 * 7 * 11 * 13 * 23

/-- `BSP::random()` from
`src/examples/arm-cm/dpp_stm32f746g-discovery/qxk/bsp.cpp`:
`uint32_t rnd = l_rnd * (3U*7U*11U*13U*23U); l_rnd = rnd;
return (rnd >> 8);` -- the stored seed `l_rnd` is passed in and the
pair (returned value, new stored seed) is passed out.  The scheduler
lock around `l_rnd` and the FPU-exercising float code do not affect
the value. -/
def random (l_rnd : Nat) : Nat × Nat :=
  let rnd := (l_rnd * RAND_MULT) % U32
  (rnd >>> 8, rnd)

/-- `BSP::randomSeed(seed)` from the same file: stores `seed` into the
`uint32_t` variable `l_rnd`. -/
def randomSeed (seed : Nat) : Nat := seed % U32

/-- The stored seed after `randomSeed x` followed by `n` calls to
`random()`. -/
def seedAfter (x : Nat) : Nat → Nat
  | 0 => randomSeed x
  | n + 1 => (random (seedAfter x n)).2

/-- The value returned by the `n`-th call (0-based) to `random()` after
`randomSeed x`. -/
def randomOut (x n : Nat) : Nat := (random (seedAfter x n)).1

/-- **C9.** `BSP::random()` returns `((s * 69069) mod 2^32) >> 8` for
stored seed `s` and replaces the seed by `(s * 69069) mod 2^32`, where
`69069 = 3*7*11*13*23` and the multiplication wraps modulo `2^32`;
consequently the whole output sequence after `BSP::randomSeed(x)` is
the deterministic function `n ↦ ((x * 69069^(n+1)) mod 2^32) >> 8`
of `x`. -/
theorem random_lcg (s x n : Nat) :
    (random s).1 = ((s * 69069) % 2 ^ 32) >>> 8 ∧
    (random s).2 = (s * 69069) % 2 ^ 32 ∧
    RAND_MULT = 69069 ∧
    seedAfter x n = (x * 69069 ^ n) % 2 ^ 32 ∧
    randomOut x n = ((x * 69069 ^ (n + 1)) % 2 ^ 32) >>> 8 := by
  have hmul : RAND_MULT = 69069 := by norm_num [RAND_MULT]
  have hseed : ∀ m : Nat, seedAfter x m = (x * 69069 ^ m) % 2 ^ 32 := by
    intro m
    induction m with
    | zero => simp [seedAfter, randomSeed, U32]
    | succ k ih =>
      simp only [seedAfter, random, hmul, U32, ih]
      rw [Nat.mod_mul_mod]
      congr 1
      ring
  refine ⟨by simp [random, hmul, U32], by simp [random, hmul, U32],
          hmul, hseed n, ?_⟩
  simp only [randomOut, random, hmul, U32, hseed n]
  rw [Nat.mod_mul_mod]
  congr 2
  ring

end BSP

namespace QSWin32

/-- `sizeof(hostName)` in `QS::onStartup`
(`src/ports/win32-qutest/qutest_port.cpp`): `char hostName[128]`. -/
def HOSTNAME_SIZE : Nat := 128

/-- The copy loop of `QS::onStartup`: `while (*src != '\0' && *src != ':'
&& dst < &hostName[sizeof(hostName) - 1]) *dst++ = *src++;`.  `room` is
the number of characters that may still be written before `dst` reaches
`&hostName[127]`.  Returns the characters copied into `hostName` and the
position `src` has reached when the loop stops. -/
def hostCopy : List Char → Nat → List Char × List Char
  | [], _ => ([], [])
  | c :: rest, room =>
    if room = 0 then ([], c :: rest)
    else if c = ':' then ([], c :: rest)
    else
      let p := hostCopy rest (room - 1)
      (c :: p.1, p.2)

/-- Host-name/service-name extraction of `QS::onStartup` from
`src/ports/win32-qutest/qutest_port.cpp`: a null `arg` selects the
default host "localhost"; the host name is what the copy loop wrote
(the code then stores the terminating `'\0'`), and the service name is
the text after the colon when the loop stopped on a colon
(`if (*src == ':') serviceName = src + 1;`), else the default
"6601". -/
def onStartupParse (arg : Option (List Char)) : List Char × List Char :=
  let src := arg.getD (String.toList "localhost")
  let p := hostCopy src (HOSTNAME_SIZE - 1)
  (p.1,
   match p.2 with
   | ':' :: r => r
   | _ => String.toList "6601")

/-- Number of bytes `QS::onStartup` writes into the 128-byte `hostName`
buffer: the copied characters plus the terminating `'\0'`. -/
def hostBytesWritten (arg : Option (List Char)) : Nat :=
  (onStartupParse arg).1.length + 1

/-- The text after the first colon of `s` (what claim C10 says the
service name is whenever a colon is present). -/
def afterFirstColon (s : List Char) : List Char :=
  (s.dropWhile (fun c => c != ':')).tail

/-- The copy loop copies the longest colon-free prefix truncated to
`room` characters, and leaves `src` right after the copied part. -/
theorem hostCopy_eq (s : List Char) :
    ∀ room : Nat,
      hostCopy s room
        = ((s.takeWhile (fun c => c != ':')).take room,
           s.drop (min room (s.takeWhile (fun c => c != ':')).length)) := by
  induction s with
  | nil => intro room; simp [hostCopy]
  | cons c rest ih =>
    intro room
    by_cases hc : c = ':'
    · subst hc
      cases room <;> simp [hostCopy]
    · cases room with
      | zero => simp [hostCopy, hc]
      | succ r =>
        have hb : (c != ':') = true := by simp [hc]
        simp only [hostCopy, Nat.succ_ne_zero, if_neg, if_false, hc,
          List.takeWhile_cons, hb, if_true, ih r]
        have hmin :
            min (r + 1) ((rest.takeWhile (fun c => c != ':')).length + 1)
              = min r ((rest.takeWhile (fun c => c != ':')).length) + 1 := by
          omega
        simp [List.take_succ_cons, List.length_cons, hmin, List.drop_succ_cons]
        exact ⟨by rw [ih r], by rw [ih r]⟩

end QSWin32

namespace QSWin32

/-- A 133-character argument whose first colon sits past the
127-character cap: 128 copies of 'a', then ":7000". -/
def bigArg : List Char := List.replicate 128 'a' ++ ':' :: String.toList "7000"

/-- **C10** fails in its service-name clause: `bigArg` contains a colon
and the text after its first colon is "7000", yet the copy loop stops
at the 127-character buffer cap before reaching the colon, so
`QS::onStartup` keeps the default service "6601" instead of "7000". -/
theorem onStartup_colon_past_cap :
    bigArg.contains ':' = true ∧
    afterFirstColon bigArg = String.toList "7000" ∧
    (onStartupParse (some bigArg)).1 = List.replicate 127 'a' ∧
    (onStartupParse (some bigArg)).2 = String.toList "6601" ∧
    (onStartupParse (some bigArg)).2 ≠ afterFirstColon bigArg := by
  decide

/-- **C10 (amended).** For every argument (a null pointer selects
"localhost"), `QS::onStartup` writes into the 128-byte `hostName`
buffer the longest colon-free prefix truncated to 127 characters plus
the terminating `'\0'` -- at most 128 bytes, always null-terminated --
stopping at the first `':'`, at the end of the string, or at the
127-character cap, whichever comes first; the service name is the text
following the point where the copy stopped when that point is a `':'`
(in particular a colon within the first 127 characters), and the
default "6601" otherwise. -/
theorem onStartup_host_parse (arg : Option (List Char)) :
    (onStartupParse arg).1
      = ((arg.getD (String.toList "localhost")).takeWhile
          (fun c => c != ':')).take 127 ∧
    (onStartupParse arg).1.length ≤ 127 ∧
    hostBytesWritten arg ≤ HOSTNAME_SIZE ∧
    (onStartupParse arg).2
      = (match (arg.getD (String.toList "localhost")).drop
            ((onStartupParse arg).1.length) with
         | ':' :: r => r
         | _ => String.toList "6601") := by
  have h := hostCopy_eq (arg.getD (String.toList "localhost")) 127
  simp at h
  have h1 : (onStartupParse arg).1
      = ((arg.getD (String.toList "localhost")).takeWhile
          (fun c => c != ':')).take 127 := by
    simp [onStartupParse, HOSTNAME_SIZE, h]
  have hlen : (onStartupParse arg).1.length
      = min 127 ((arg.getD (String.toList "localhost")).takeWhile
          (fun c => c != ':')).length := by
    rw [h1, List.length_take]
  refine ⟨h1, ?_, ?_, ?_⟩
  · rw [hlen]; omega
  · have := hlen
    simp only [hostBytesWritten, HOSTNAME_SIZE]
    omega
  · rw [hlen]
    simp [onStartupParse, HOSTNAME_SIZE, h]

end QSWin32
